import Mathlib

/-!
Verification development for the EPR Verification Settlement Engine.

This file gives a shallow embedding of the core of the EPR backend:
the access resolver (`determineAccessLevel`), the pricing engine
(`calculatePrice`), the wallet ledger (`UpdateWalletBalance`,
`IncrementVerificationCount`), the verification recorder
(`recordVerification`), the settlement orchestrator (`VerifyBill`) from
`internal/services/verification_service.go`, and the content hasher
(`GenerateBillHash`, `VerifyBillHash`) from `internal/utils/hash.go`.

Modelling conventions:
- Go `float64` currency amounts are modelled as exact rationals (`ℚ`);
  the constants 0.5 and 1.5 of the pricing formula are the exact
  rationals 1/2 and 3/2.
- Database state is a record `DB` of partial maps for users and bills
  plus the append-only list of verification records; Go errors are
  modelled with `Except`.
- Go `map[string]interface{}` JSON documents are modelled by the
  inductive type `Json`, whose objects are association lists.
-/

namespace EPR

/-- User roles, from `internal/models/user.go`. -/
inductive UserRole where
  | public
  | institutionUser
  | institutionAdmin
  | verifier
  | masterAdmin
  deriving DecidableEq

/-- Bill access tiers, from `internal/models/bill.go`. -/
inductive AccessLevel where
  | public
  | restricted
  | government
  | financial
  deriving DecidableEq

/-- Verification outcome statuses, from `internal/models` (unnamed part_003). -/
inductive VerificationStatus where
  | valid
  | invalid
  | suspicious
  | notFound
  | restricted
  deriving DecidableEq

/-- JSON-like documents: Go's `map[string]interface{}` / `[]interface{}` /
scalar values. Objects are association lists of key/value pairs; a Go map
has no key order and no duplicate keys, which is captured by the
equivalence `docEquiv` and the well-formedness predicate `WFDoc` below. -/
inductive Json where
  | str (s : String) : Json
  | num (q : ℚ) : Json
  | bool (b : Bool) : Json
  | null : Json
  | arr (xs : List Json) : Json
  | obj (kvs : List (String × Json)) : Json

/-- Pricing configuration, from `config/config.go` (`PricingConfig`). -/
structure PricingConfig where
  billGenerationFee : ℚ
  verificationMinFee : ℚ
  verificationMaxFee : ℚ
  verificationPercentage : ℚ
  loyaltyFreeEveryN : Nat

/-- The default pricing configuration values from `config/config.go`:
generation fee 0.50, min fee 1.00, max fee 10.00, percentage 0.01,
loyalty interval 10. -/
def defaultPricing : PricingConfig :=
  { billGenerationFee := 1/2
    verificationMinFee := 1
    verificationMaxFee := 10
    verificationPercentage := 1/100
    loyaltyFreeEveryN := 10 }

/-- The user/wallet fields of `internal/models/user.go` used by the
settlement engine. -/
structure User where
  id : String
  role : UserRole
  walletBalance : ℚ
  verificationCount : Nat
  freeVerificationsEarned : Nat
  deriving DecidableEq

/-- The bill fields of `internal/models/bill.go` used by the settlement
engine. -/
structure Bill where
  id : String
  billNumber : String
  billType : String
  accessLevel : AccessLevel
  amount : ℚ
  currency : String
  issuerId : String
  issuerName : String
  issueDate : String
  billData : Json

/-- The fields-shown / fields-hidden summary built by `getRevealedFields`. -/
structure RevealedFields where
  fieldsShown : List String
  fieldsHidden : List String
  deriving DecidableEq

/-- A verification audit record, from `internal/models` (unnamed part_003);
the wall-clock response time is omitted from the model. -/
structure Verification where
  billId : Option String
  billNumber : String
  verifierId : Option String
  verifierIP : String
  verifierUserAgent : String
  accessLevelUsed : AccessLevel
  dataRevealed : Option RevealedFields
  amountCharged : ℚ
  wasFree : Bool
  pricingRuleApplied : String
  verificationStatus : VerificationStatus
  blockchainVerified : Bool

/-- Database state visible to the settlement engine: users indexed by id,
bills indexed by bill number, and the append-only verification records. -/
structure DB where
  users : String → Option User
  bills : String → Option Bill
  records : List Verification

/-- Point update of the users table. -/
def DB.setUser (db : DB) (uid : String) (u : User) : DB :=
  { db with users := fun i => if i = uid then some u else db.users i }

/-- `UpdateWalletBalance` from the user repository (unnamed part_004):
writes the given balance, failing when no row matches the id. -/
def UpdateWalletBalance (db : DB) (uid : String) (newBalance : ℚ) :
    Except String DB :=
  match db.users uid with
  | none => .error "user not found"
  | some u => .ok (db.setUser uid { u with walletBalance := newBalance })

/-- The per-user effect of `IncrementVerificationCount` (unnamed
part_004): increment `verification_count`; when the new count is a
multiple of 10 (a hardcoded constant in the source, independent of
`LoyaltyFreeEveryN`), also increment `free_verifications_earned` and
report that a free verification was earned. -/
def incrementUser (u : User) : Bool × User :=
  let newCount := u.verificationCount + 1
  let earnedFree := newCount % 10 == 0
  (earnedFree,
    { u with
      verificationCount := newCount
      freeVerificationsEarned :=
        if earnedFree then u.freeVerificationsEarned + 1
        else u.freeVerificationsEarned })

/-- `IncrementVerificationCount` from the user repository (unnamed
part_004) as a database operation. A missing user makes the transaction
roll back with an error, which `VerifyBill` logs and swallows; the net
effect is an unchanged database and `earnedFree = false`. -/
def IncrementVerificationCount (db : DB) (uid : String) : Bool × DB :=
  match db.users uid with
  | none => (false, db)
  | some u =>
      let r := incrementUser u
      (r.1, db.setUser uid r.2)

/-- `determineAccessLevel` from `verification_service.go` (lines 173-199):
resolves the disclosure level from the bill's access tier and the
requester's role. -/
def determineAccessLevel (userRole : UserRole) (bill : Bill) : String :=
  if bill.accessLevel = AccessLevel.public then "full"
  else if bill.accessLevel = AccessLevel.restricted then
    if userRole = UserRole.institutionUser ∨
        userRole = UserRole.institutionAdmin ∨
        userRole = UserRole.verifier ∨
        userRole = UserRole.masterAdmin then "full"
    else "limited"
  else if bill.accessLevel = AccessLevel.government ∨
      bill.accessLevel = AccessLevel.financial then
    if userRole = UserRole.verifier ∨ userRole = UserRole.masterAdmin then
      "full"
    else "none"
  else "limited"

/-- The non-loyalty tail of `calculatePrice` from
`verification_service.go` (lines 132-169): a percentage-of-amount base
with a 0.5 damping factor, a min/max clamp with a pricing-rule label, a
tier adjustment, and a final defensive clamp. -/
def calculatePriceNoLoyalty (cfg : PricingConfig) (billAmount : ℚ)
    (accessLevel : AccessLevel) : ℚ × Bool × String :=
  let percentagePrice := billAmount * cfg.verificationPercentage * (1/2)
  let minFee := cfg.verificationMinFee
  let maxFee := cfg.verificationMaxFee
  let clamped : ℚ × String :=
    if percentagePrice < minFee then (minFee, "minimum_fee")
    else if percentagePrice > maxFee then (maxFee, "maximum_fee_capped")
    else (percentagePrice, "percentage_1_percent")
  let adjusted : ℚ × String :=
    match accessLevel with
    | AccessLevel.restricted => (clamped.1 * (3/2), "restricted_access_premium")
    | AccessLevel.government => (maxFee, "government_financial_premium")
    | AccessLevel.financial => (maxFee, "government_financial_premium")
    | AccessLevel.public => clamped
  let bounded1 := if adjusted.1 < minFee then minFee else adjusted.1
  let bounded2 := if bounded1 > maxFee then maxFee else bounded1
  (bounded2, false, adjusted.2)

/-- `calculatePrice` from `verification_service.go` (lines 121-170).
`user?` is the result of the repository lookup of the requester
(`none` for an anonymous caller or a failed lookup). Returns
(fee, wasFree, pricingRule). -/
def calculatePrice (cfg : PricingConfig) (user? : Option User)
    (billAmount : ℚ) (accessLevel : AccessLevel) : ℚ × Bool × String :=
  match user? with
  | some user =>
      if 0 < user.freeVerificationsEarned then (0, true, "loyalty_free")
      else calculatePriceNoLoyalty cfg billAmount accessLevel
  | none => calculatePriceNoLoyalty cfg billAmount accessLevel

/-- The outward response of `VerifyBill`, from `internal/models`
(`VerifyBillResponse`). Fields not set on a path keep Go zero values
(empty strings, `none`). -/
structure VerifyBillResponse where
  success : Bool
  billNumber : String
  status : String
  issuerName : String
  issueDate : String
  billType : String
  message : String
  details : Option Json
  fee : ℚ

/-- Errors surfaced by `VerifyBill` (Go returns them as wrapped error
values; the insufficient-balance error carries the required and
available amounts that Go formats into its message). -/
inductive VerifyErr where
  | getUserFailed
  | insufficientBalance (required available : ℚ)
  | updateWalletFailed
  deriving DecidableEq

/-- `buildVerificationResponse` from `verification_service.go`
(lines 202-233). -/
def buildVerificationResponse (bill : Bill) (accessLevel : String)
    (fee : ℚ) : VerifyBillResponse :=
  let response : VerifyBillResponse :=
    { success := true
      billNumber := bill.billNumber
      status := "valid"
      issuerName := bill.issuerName
      issueDate := bill.issueDate
      billType := bill.billType
      message := "This bill is registered and verified in the EPR system."
      details := none
      fee := fee }
  if accessLevel = "full" then
    { response with details := some bill.billData }
  else if accessLevel = "limited" then
    { response with
      details := some (Json.obj
        [("amount", Json.num bill.amount), ("currency", Json.str bill.currency)]) }
  else if accessLevel = "none" then
    { response with
      status := "restricted"
      message := "This bill requires institutional verifier access to view full details." }
  else response

/-- `getRevealedFields` from `verification_service.go` (lines 236-252). -/
def getRevealedFields (accessLevel : String) : RevealedFields :=
  if accessLevel = "full" then
    { fieldsShown := ["all"], fieldsHidden := [] }
  else if accessLevel = "limited" then
    { fieldsShown := ["bill_number", "issuer_name", "issue_date", "bill_type", "amount"]
      fieldsHidden := ["recipient_details", "line_items", "sensitive_data"] }
  else if accessLevel = "none" then
    { fieldsShown := ["bill_number", "issuer_name", "bill_type"]
      fieldsHidden := ["all_details"] }
  else { fieldsShown := [], fieldsHidden := [] }

/-- `recordVerification` from `verification_service.go` (lines 255-298):
appends one audit record. Note that the stored pricing rule is the
constant string "standard" (line 291), not the rule computed by
`calculatePrice`. -/
def recordVerification (db : DB) (userID : Option String)
    (billID : Option String) (billNumber : String) (fee : ℚ)
    (wasFree : Bool) (status : VerificationStatus)
    (dataRevealed : Option RevealedFields) (ip userAgent : String) : DB :=
  let accessLevelUsed :=
    match userID with
    | none => AccessLevel.public
    | some uid =>
        match db.users uid with
        | none => AccessLevel.public
        | some user =>
            if user.role = UserRole.verifier then AccessLevel.government
            else if user.role = UserRole.institutionUser ∨
                user.role = UserRole.institutionAdmin then AccessLevel.restricted
            else AccessLevel.public
  let verification : Verification :=
    { billId := billID
      billNumber := billNumber
      verifierId := userID
      verifierIP := ip
      verifierUserAgent := userAgent
      accessLevelUsed := accessLevelUsed
      dataRevealed := dataRevealed
      amountCharged := fee
      wasFree := wasFree
      pricingRuleApplied := "standard"
      verificationStatus := status
      blockchainVerified := false }
  { db with records := verification :: db.records }

/-- The response built on the bill-not-found path of `VerifyBill`
(lines 50-57): success with status "invalid" and the configured minimum
fee. -/
def notFoundResponse (cfg : PricingConfig) (billNumber : String) :
    VerifyBillResponse :=
  { success := true
    billNumber := billNumber
    status := "invalid"
    issuerName := ""
    issueDate := ""
    billType := ""
    message := "This bill is not registered in the EPR system. It may be fake."
    details := none
    fee := cfg.verificationMinFee }

/-- The wallet check-debit-update block of `VerifyBill` (lines 74-99):
executed only for an authenticated requester whose fee was not waived.
On success it returns the database after the debit and the counter
update; every error leaves the database untouched. -/
def settleStep (db : DB) (uid : String) (fee : ℚ) : Except VerifyErr DB :=
  match db.users uid with
  | none => .error .getUserFailed
  | some user =>
      if user.walletBalance < fee then
        .error (.insufficientBalance fee user.walletBalance)
      else
        match UpdateWalletBalance db uid (user.walletBalance - fee) with
        | .error _ => .error .updateWalletFailed
        | .ok db1 => .ok (IncrementVerificationCount db1 uid).2

/-- `VerifyBill` from `verification_service.go` (lines 38-118): the
settlement orchestrator. Returns the response (or a surfaced error) and
the database after the call. -/
def VerifyBill (cfg : PricingConfig) (db : DB) (userID : Option String)
    (billNumber ip userAgent : String) (userRole : UserRole) :
    Except VerifyErr VerifyBillResponse × DB :=
  match db.bills billNumber with
  | none =>
      let response := notFoundResponse cfg billNumber
      match userID with
      | some _ =>
          (.ok response,
            recordVerification db userID none billNumber response.fee false
              VerificationStatus.notFound none ip userAgent)
      | none => (.ok response, db)
  | some bill =>
      let accessLevel := determineAccessLevel userRole bill
      let priced := calculatePrice cfg (userID.bind db.users) bill.amount bill.accessLevel
      let fee := priced.1
      let wasFree := priced.2.1
      let walletOutcome : Except VerifyErr DB :=
        match userID, wasFree with
        | some uid, false => settleStep db uid fee
        | _, _ => .ok db
      match walletOutcome with
      | .error e => (.error e, db)
      | .ok db2 =>
          let response0 := buildVerificationResponse bill accessLevel fee
          let dataRevealed := getRevealedFields accessLevel
          let statusAndResponse :=
            if accessLevel = "none" then
              (VerificationStatus.restricted,
                { response0 with
                  status := "restricted"
                  message := "This bill requires institutional access to view full details." })
            else (VerificationStatus.valid, response0)
          match userID with
          | some _ =>
              (.ok statusAndResponse.2,
                recordVerification db2 userID (some bill.id) billNumber fee
                  wasFree statusAndResponse.1 (some dataRevealed) ip userAgent)
          | none => (.ok statusAndResponse.2, db2)

/-- One settlement of the wallet check-debit-update of `VerifyBill`
(lines 80-98) as a transformer of a single user's state: check the
balance, reject when it cannot cover the fee, otherwise debit and run
the loyalty counter update. Returns whether the settlement was accepted. -/
def settle (u : User) (fee : ℚ) : Bool × User :=
  if u.walletBalance < fee then (false, u)
  else (true, (incrementUser { u with walletBalance := u.walletBalance - fee }).2)

/-- A finite sequence of settlements against one user's wallet. -/
def settleRun (u : User) (fees : List ℚ) : User :=
  fees.foldl (fun v f => (settle v f).2) u

/-- The fees of exactly those settlements in a run that were not
rejected for insufficient funds. -/
def acceptedFees (u : User) : List ℚ → List ℚ
  | [] => []
  | f :: fs =>
      let r := settle u f
      if r.1 then f :: acceptedFees r.2 fs else acceptedFees r.2 fs

/-- Strict lexicographic order on character lists, modelling Go's
byte-wise string order used by `sort.Strings` in `normalizeJSON`
(`internal/utils/hash.go`) and by `encoding/json` key sorting. -/
def charsLt : List Char → List Char → Bool
  | [], [] => false
  | [], _ :: _ => true
  | _ :: _, [] => false
  | a :: as, b :: bs => if a = b then charsLt as bs else decide (a < b)

/-- Key order on association-list entries: sort by key, lexicographically. -/
def keyLe (a b : String × Json) : Prop :=
  charsLt a.1.data b.1.data = true ∨ a.1.data = b.1.data

instance keyLeDecidable : DecidableRel keyLe := fun a b => by
  unfold keyLe; infer_instance

/-- Sorting the entries of a JSON object by key, as `normalizeJSON` does
via `sort.Strings` over the map's keys. -/
def sortPairs (l : List (String × Json)) : List (String × Json) :=
  List.insertionSort keyLe l

mutual

/-- `normalizeJSON` from `internal/utils/hash.go` (lines 29-64):
recursively rewrite the document so every object has its keys in sorted
order; arrays keep their order, scalars pass through. (In Go the
rebuilt value is a map whose marshalled form is key-sorted; on the
association-list model this is the explicit sort of the entries.) -/
def normalizeJSON : Json → Json
  | .obj kvs => .obj (sortPairs (normalizePairs kvs))
  | .arr xs => .arr (normalizeList xs)
  | x => x

/-- Pointwise `normalizeJSON` over array elements. -/
def normalizeList : List Json → List Json
  | [] => []
  | x :: xs => normalizeJSON x :: normalizeList xs

/-- Pointwise `normalizeJSON` over object values. -/
def normalizePairs : List (String × Json) → List (String × Json)
  | [] => []
  | (k, v) :: rest => (k, normalizeJSON v) :: normalizePairs rest

end

mutual

/-- Canonical serialization of a document, modelling `json.Marshal` on
the output of `normalizeJSON`. `json.Marshal` itself sorts map keys; in
this model every object reaching `jsonMarshal` inside `GenerateBillHash`
has already been key-sorted by `normalizeJSON`, so entries are rendered
in list order. -/
def jsonMarshal : Json → String
  | .str s => "\"" ++ s ++ "\""
  | .num q => toString q.num ++ "/" ++ toString q.den
  | .bool b => if b then "true" else "false"
  | .null => "null"
  | .arr xs => "[" ++ String.intercalate "," (jsonMarshalList xs) ++ "]"
  | .obj kvs => "\x7b" ++ String.intercalate "," (jsonMarshalPairs kvs) ++ "\x7d"

/-- Serialization of array elements. -/
def jsonMarshalList : List Json → List String
  | [] => []
  | x :: xs => jsonMarshal x :: jsonMarshalList xs

/-- Serialization of object entries. -/
def jsonMarshalPairs : List (String × Json) → List String
  | [] => []
  | (k, v) :: rest => ("\"" ++ k ++ "\":" ++ jsonMarshal v) :: jsonMarshalPairs rest

end

/-- Models the external `crypto/sha256` digest with hex encoding: an
unspecified but fixed deterministic function of the serialized bytes.
Every property proved here depends only on the digest being a function
of its input, never on this particular formula. -/
def sha256Hex (s : String) : String :=
  toString (s.data.foldl (fun (acc : Nat) c => (acc * 131 + c.toNat) % (2 ^ 256)) 0)

/-- `GenerateBillHash` from `internal/utils/hash.go` (lines 12-26):
normalize, marshal, digest. (The Go serialization error path is
unreachable on `Json` values and is omitted.) -/
def GenerateBillHash (data : Json) : String :=
  sha256Hex (jsonMarshal (normalizeJSON data))

/-- `VerifyBillHash` from `internal/utils/hash.go` (lines 67-74):
recompute and compare. -/
def VerifyBillHash (data : Json) (expectedHash : String) : Bool :=
  GenerateBillHash data == expectedHash

/-- Finds the first entry with the given key and returns its value and
the list with that entry removed. Used to define equality of objects up
to key order. -/
def lookupRemove (k : String) : List (String × Json) → Option (Json × List (String × Json))
  | [] => none
  | (k2, v) :: rest =>
      if k2 = k then some (v, rest)
      else (lookupRemove k rest).map (fun p => (p.1, (k2, v) :: p.2))

mutual

/-- Semantic equality of documents as unordered-key trees: the same
maps up to key order, the same sequences in the same order, the same
scalar leaves. Object entries are matched by key, values compared
recursively. -/
def docEquiv : Json → Json → Bool
  | .str a, .str b => a == b
  | .num a, .num b => a == b
  | .bool a, .bool b => a == b
  | .null, .null => true
  | .arr xs, .arr ys => docEquivList xs ys
  | .obj kvs, .obj qs => docEquivPairs kvs qs
  | _, _ => false

/-- Pointwise document equivalence of sequences. -/
def docEquivList : List Json → List Json → Bool
  | [], [] => true
  | x :: xs, y :: ys => docEquiv x y && docEquivList xs ys
  | _, _ => false

/-- Equivalence of object entry lists up to key order. -/
def docEquivPairs : List (String × Json) → List (String × Json) → Bool
  | [], [] => true
  | [], _ :: _ => false
  | (k, v) :: rest, qs =>
      match lookupRemove k qs with
      | none => false
      | some (w, qs2) => docEquiv v w && docEquivPairs rest qs2

end

/-- Boolean check that the keys of an object entry list are distinct —
always true of a list denoting a Go map. -/
def nodupKeysB : List (String × Json) → Bool
  | [] => true
  | (k, _) :: rest => !(rest.any (fun q => q.1 == k)) && nodupKeysB rest

mutual

/-- Well-formedness of a document as the image of a Go value: every
object has distinct keys, recursively. -/
def WFDoc : Json → Bool
  | .arr xs => WFList xs
  | .obj kvs => nodupKeysB kvs && WFPairs kvs
  | _ => true

/-- Well-formedness of array elements. -/
def WFList : List Json → Bool
  | [] => true
  | x :: xs => WFDoc x && WFList xs

/-- Well-formedness of object values. -/
def WFPairs : List (String × Json) → Bool
  | [] => true
  | (_, v) :: rest => WFDoc v && WFPairs rest

end

/-- The access decision written in the specification's table, stated
over role and tier only (the spec's additional ownership override has
no counterpart in the code; see the theorems for claim C3). -/
def specAccessTable (role : UserRole) (tier : AccessLevel) : String :=
  match tier with
  | .public => "full"
  | .restricted =>
      match role with
      | .public => "limited"
      | _ => "full"
  | .government | .financial =>
      match role with
      | .verifier => "full"
      | .masterAdmin => "full"
      | _ => "none"

/-- Clamping into the closed interval [lo, hi], as the specification
words it. -/
def specClamp (lo hi x : ℚ) : ℚ := max lo (min hi x)

/-- The non-loyalty pricing computation exactly as claim C4 words it:
base = amount × percentage × 0.5 clamped into [minFee, maxFee] with a
clamp label, then ×1.5 and re-clamped for a restricted tier, forced to
maxFee for government/financial, unchanged for public. -/
def specNonLoyaltyPrice (cfg : PricingConfig) (amount : ℚ)
    (lvl : AccessLevel) : ℚ × Bool × String :=
  let minFee := cfg.verificationMinFee
  let maxFee := cfg.verificationMaxFee
  let base := amount * cfg.verificationPercentage * (1/2)
  let clamped := specClamp minFee maxFee base
  let label :=
    if base < minFee then "minimum_fee"
    else if base > maxFee then "maximum_fee_capped"
    else "percentage_1_percent"
  match lvl with
  | .restricted =>
      (specClamp minFee maxFee (clamped * (3/2)), false, "restricted_access_premium")
  | .government => (maxFee, false, "government_financial_premium")
  | .financial => (maxFee, false, "government_financial_premium")
  | .public => (clamped, false, label)

/-- Decidable success test for `Except` results. -/
def isOkB {ε α : Type} : Except ε α → Bool
  | .ok _ => true
  | .error _ => false

/-- Concrete government-tier bill issued by user "issuer1". -/
def govBill : Bill :=
  { id := "bill-g1"
    billNumber := "EPR-GOV-2025-001"
    billType := "tax_receipt"
    accessLevel := AccessLevel.government
    amount := 500
    currency := "INR"
    issuerId := "issuer1"
    issuerName := "Revenue Department"
    issueDate := "2025-01-15"
    billData := Json.obj [("total", Json.num 500)] }

/-- Concrete public-tier bill with amount 1000. -/
def publicBill : Bill :=
  { id := "bill-p1"
    billNumber := "EPR-INV-2025-001"
    billType := "sales_invoice"
    accessLevel := AccessLevel.public
    amount := 1000
    currency := "INR"
    issuerId := "issuer1"
    issuerName := "Acme Traders"
    issueDate := "2025-02-01"
    billData := Json.obj [("total", Json.num 1000)] }

/-- Concrete user holding one banked loyalty credit. -/
def freeUser : User :=
  { id := "u1", role := UserRole.public, walletBalance := 0
    verificationCount := 3, freeVerificationsEarned := 1 }

/-- Concrete user with funds and no loyalty credit. -/
def paidUser : User :=
  { id := "u1", role := UserRole.public, walletBalance := 100
    verificationCount := 0, freeVerificationsEarned := 0 }

/-- Concrete user with an empty wallet and no loyalty credit. -/
def brokeUser : User :=
  { id := "u1", role := UserRole.public, walletBalance := 0
    verificationCount := 0, freeVerificationsEarned := 0 }

/-- Concrete user one verification short of the loyalty boundary of the
counterexample configuration. -/
def userAt4 : User :=
  { id := "u9", role := UserRole.public, walletBalance := 50
    verificationCount := 4, freeVerificationsEarned := 0 }

/-- Concrete user used by the settlement-sequence witness: balance 4. -/
def demoUser : User :=
  { id := "u7", role := UserRole.public, walletBalance := 4
    verificationCount := 0, freeVerificationsEarned := 0 }

/-- A pricing configuration whose loyalty interval is 5 rather than the
default 10. -/
def cfgN5 : PricingConfig := { defaultPricing with loyaltyFreeEveryN := 5 }

/-- Concrete nested document for hashing scenarios. -/
def demoDoc : Json :=
  Json.obj [("b", Json.num 1),
    ("a", Json.arr [Json.obj [("y", Json.bool true), ("z", Json.null)]])]

/-- `demoDoc` with the keys permuted at both nesting levels. -/
def demoDocPerm : Json :=
  Json.obj [("a", Json.arr [Json.obj [("z", Json.null), ("y", Json.bool true)]]),
    ("b", Json.num 1)]

/-- A one-user, at-most-one-bill database with no records. -/
def dbWith (u? : Option User) (b? : Option Bill) : DB :=
  { users := fun i => if i = "u1" then u? else none
    bills := fun n =>
      match b? with
      | some b => if n = b.billNumber then some b else none
      | none => none
    records := [] }

theorem setUser_users_self (db : DB) (uid : String) (u : User) :
    (db.setUser uid u).users uid = some u := by
  simp [DB.setUser]

theorem recordVerification_users (db : DB) (userID billID : Option String)
    (bn : String) (fee : ℚ) (wasFree : Bool) (status : VerificationStatus)
    (dr : Option RevealedFields) (ip ua : String) :
    (recordVerification db userID billID bn fee wasFree status dr ip ua).users
      = db.users := rfl

/-- C3: the claim that the bill's own issuer always resolves to full
access is false on the code: `determineAccessLevel` never inspects the
requester's identity, and the issuer "issuer1" of the government-tier
bill `govBill`, verifying with their own institution-admin role,
resolves to "none", not "full". -/
theorem issuer_government_access_cex :
    govBill.issuerId = "issuer1" ∧
    determineAccessLevel UserRole.institutionAdmin govBill = "none" ∧
    determineAccessLevel UserRole.institutionAdmin govBill ≠ "full" := by
  refine ⟨rfl, rfl, ?_⟩
  decide

/-- C3 (amended): access resolution depends only on the requester's role
and the bill's access tier — there is no ownership override — and it
follows the tier table with master_admin always resolving to "full";
in particular a government-tier bill resolves to "none" for its own
issuer unless the issuer's role is verifier or master_admin. -/
theorem determineAccessLevel_table (role : UserRole) (bill : Bill) :
    determineAccessLevel role bill = specAccessTable role bill.accessLevel := by
  rcases bill with ⟨_, _, _, lvl, _, _, _, _, _, _⟩
  cases lvl <;> cases role <;> rfl

/-- C5: the claim is false in its reference to the configured loyalty
interval: the code hardcodes 10. With `LoyaltyFreeEveryN = 5`, a user at
verification_count 4 reaches count 5 — a multiple of the configured
interval — yet earns no credit and the earned flag is false. -/
theorem loyalty_interval_cex :
    cfgN5.loyaltyFreeEveryN = 5 ∧
    (incrementUser userAt4).2.verificationCount = 5 ∧
    (incrementUser userAt4).2.verificationCount % cfgN5.loyaltyFreeEveryN = 0 ∧
    (incrementUser userAt4).1 = false ∧
    (incrementUser userAt4).2.freeVerificationsEarned
      = userAt4.freeVerificationsEarned := by
  refine ⟨rfl, rfl, rfl, rfl, rfl⟩

/-- C5 (amended): each settlement's counter update increments
verification_count by exactly one and increments
free_verifications_earned by exactly one — with the earned-credit flag
true — exactly when the new count is a multiple of the hardcoded
constant 10, independent of the configured LoyaltyFreeEveryN; at every
other count free_verifications_earned is unchanged. In particular a user
at count 9 gains exactly one credit on reaching 10, and again at 20. -/
theorem incrementUser_loyalty (u : User) :
    (incrementUser u).2.verificationCount = u.verificationCount + 1 ∧
    ((incrementUser u).1 = true ↔ (u.verificationCount + 1) % 10 = 0) ∧
    (incrementUser u).2.freeVerificationsEarned =
      (if (u.verificationCount + 1) % 10 = 0 then u.freeVerificationsEarned + 1
       else u.freeVerificationsEarned) := by
  unfold incrementUser
  refine ⟨rfl, ?_, ?_⟩ <;>
    by_cases h : (u.verificationCount + 1) % 10 = 0 <;>
    simp [h]

/-- C10: an anonymous `VerifyBill` call mutates nothing — no wallet, no
counters, no audit record: the database is returned unchanged — and
still returns a successful response (whose fee is only reported). -/
theorem anonymous_no_mutation (cfg : PricingConfig) (db : DB)
    (bn ip ua : String) (role : UserRole) :
    (VerifyBill cfg db none bn ip ua role).2 = db ∧
    isOkB (VerifyBill cfg db none bn ip ua role).1 = true := by
  unfold VerifyBill
  cases hb : db.bills bn with
  | none => exact ⟨rfl, rfl⟩
  | some bill => exact ⟨rfl, rfl⟩

/-- C7: the claim is false in its reported status: an anonymous lookup
of a bill number absent from the database returns status "invalid", not
"not_found" (the database is indeed left unchanged). -/
theorem notFound_status_cex :
    (VerifyBill defaultPricing (dbWith none none) none "EPR-XXX" "ip" "ua"
        UserRole.public).1 = .ok (notFoundResponse defaultPricing "EPR-XXX") ∧
    (notFoundResponse defaultPricing "EPR-XXX").status = "invalid" ∧
    (notFoundResponse defaultPricing "EPR-XXX").status ≠ "not_found" := by
  refine ⟨rfl, rfl, ?_⟩
  decide

/-- C7 (amended): a `VerifyBill` call for a bill number that does not
exist, made by an anonymous caller, returns a successful response whose
status is "invalid" (message: not registered) carrying the configured
minimum fee, mutates no wallet and writes no audit record: the database
is returned unchanged. -/
theorem verifyBill_notFound_anonymous (cfg : PricingConfig) (db : DB)
    (bn ip ua : String) (role : UserRole) (hb : db.bills bn = none) :
    VerifyBill cfg db none bn ip ua role = (.ok (notFoundResponse cfg bn), db) ∧
    (notFoundResponse cfg bn).status = "invalid" ∧
    (notFoundResponse cfg bn).fee = cfg.verificationMinFee := by
  refine ⟨?_, rfl, rfl⟩
  unfold VerifyBill
  rw [hb]

theorem verifyBill_notFound_anonymous_witness :
    (dbWith none none).bills "EPR-XXX" = none ∧
    VerifyBill defaultPricing (dbWith none none) none "EPR-XXX" "ip" "ua"
        UserRole.verifier
      = (.ok (notFoundResponse defaultPricing "EPR-XXX"), dbWith none none) :=
  ⟨rfl,
    (verifyBill_notFound_anonymous defaultPricing (dbWith none none) "EPR-XXX"
      "ip" "ua" UserRole.verifier rfl).1⟩

theorem incrementUser_walletBalance (u : User) :
    (incrementUser u).2.walletBalance = u.walletBalance := by
  unfold incrementUser
  by_cases h : (u.verificationCount + 1) % 10 == 0 <;> simp [h]

theorem settleRun_cons (u : User) (f : ℚ) (fs : List ℚ) :
    settleRun u (f :: fs) = settleRun (settle u f).2 fs := rfl

theorem settle_rejected (u : User) (f : ℚ) (h : u.walletBalance < f) :
    settle u f = (false, u) := by
  simp [settle, h]

theorem settle_accepted_balance (u : User) (f : ℚ) (h : ¬u.walletBalance < f) :
    (settle u f).1 = true ∧ (settle u f).2.walletBalance = u.walletBalance - f := by
  refine ⟨by simp [settle, h], ?_⟩
  simp only [settle, h, if_false]
  exact incrementUser_walletBalance _

theorem settleRun_nonneg (fees : List ℚ) :
    ∀ u : User, 0 ≤ u.walletBalance → 0 ≤ (settleRun u fees).walletBalance := by
  induction fees with
  | nil => intro u h; exact h
  | cons f fs ih =>
      intro u h
      rw [settleRun_cons]
      apply ih
      by_cases hlt : u.walletBalance < f
      · rw [settle_rejected u f hlt]; exact h
      · rw [(settle_accepted_balance u f hlt).2]; linarith [le_of_not_lt hlt]

theorem settleRun_balance (fees : List ℚ) : ∀ u : User,
    (settleRun u fees).walletBalance
      = u.walletBalance - (acceptedFees u fees).sum := by
  induction fees with
  | nil => intro u; simp [settleRun, acceptedFees]
  | cons f fs ih =>
      intro u
      rw [settleRun_cons]
      by_cases hlt : u.walletBalance < f
      · rw [show acceptedFees u (f :: fs) = acceptedFees u fs by
          simp [acceptedFees, settle_rejected u f hlt]]
        rw [settle_rejected u f hlt]
        exact ih u
      · have hacc := settle_accepted_balance u f hlt
        rw [show acceptedFees u (f :: fs) = f :: acceptedFees (settle u f).2 fs by
          simp [acceptedFees, hacc.1]]
        rw [ih (settle u f).2, hacc.2, List.sum_cons]
        ring

/-- C1: running any finite sequence of settlement steps (the wallet
check-debit-update block of `VerifyBill`) against one user's wallet
from a non-negative balance with non-negative fees, the balance is
non-negative after every prefix of the run, and the final balance
equals the initial balance minus the sum of the fees of exactly those
settlements not rejected for insufficient funds. -/
theorem wallet_sequence_invariant (u : User) (fees : List ℚ)
    (h0 : 0 ≤ u.walletBalance) (_hf : ∀ f ∈ fees, 0 ≤ f) :
    (∀ pre suf, fees = pre ++ suf → 0 ≤ (settleRun u pre).walletBalance) ∧
    (settleRun u fees).walletBalance
      = u.walletBalance - (acceptedFees u fees).sum := by
  refine ⟨fun pre _ _ => settleRun_nonneg pre u h0, settleRun_balance fees u⟩

theorem wallet_sequence_invariant_witness :
    (0:ℚ) ≤ demoUser.walletBalance ∧
    (settleRun demoUser [3, 10, 2]).walletBalance
      = demoUser.walletBalance - (acceptedFees demoUser [3, 10, 2]).sum ∧
    (acceptedFees demoUser [3, 10, 2]).sum = 3 ∧
    (settleRun demoUser [3, 10, 2]).walletBalance = 1 :=
  ⟨by decide,
    (wallet_sequence_invariant demoUser [3, 10, 2] (by decide)
      (by intro f hf; fin_cases hf <;> decide)).2,
    by norm_num [acceptedFees, settle, incrementUser, demoUser],
    by norm_num [settleRun, acceptedFees, settle, incrementUser, demoUser]⟩

theorem clamp_chain_eq {lo hi : ℚ} (h : lo ≤ hi) (x : ℚ) :
    (if (if x < lo then lo else x) > hi then hi
     else if x < lo then lo else x) = max lo (min hi x) := by
  rcases lt_or_le x lo with h1 | h1
  · rw [if_pos h1, if_neg (not_lt.mpr h),
      min_eq_right (le_of_lt (lt_of_lt_of_le h1 h)), max_eq_left (le_of_lt h1)]
  · rw [if_neg (not_lt.mpr h1)]
    rcases lt_or_le hi x with h2 | h2
    · rw [if_pos h2, min_eq_left (le_of_lt h2), max_eq_right h]
    · rw [if_neg (not_lt.mpr h2), min_eq_right h2, max_eq_right h1]

theorem clamp_tuple_fst {lo hi : ℚ} (h : lo ≤ hi) (x : ℚ)
    (a b c : String) :
    (if x < lo then (lo, a) else if x > hi then (hi, b) else (x, c)).1
      = max lo (min hi x) := by
  split_ifs with h1 h2
  · rw [min_eq_right (le_of_lt (lt_of_lt_of_le h1 h)), max_eq_left (le_of_lt h1)]
  · rw [min_eq_left (le_of_lt h2), max_eq_right h]
  · rw [min_eq_right (le_of_not_lt h2), max_eq_right (le_of_not_lt h1)]

theorem clamp_idem {lo hi : ℚ} (h : lo ≤ hi) (x : ℚ) :
    max lo (min hi (max lo (min hi x))) = max lo (min hi x) := by
  rw [min_eq_right (max_le h (min_le_left hi x)),
    max_eq_right (le_max_left lo (min hi x))]

/-- C4: for a requester with no banked free credit and a configuration
with minFee ≤ maxFee, `calculatePrice` returns exactly the fee and label
of the specification's non-loyalty formula: base = amount × percentage ×
0.5 clamped into [minFee, maxFee] with labels "minimum_fee" /
"maximum_fee_capped" / "percentage_1_percent", then ×1.5 re-clamped with
label "restricted_access_premium" for a restricted tier, forced to
maxFee with label "government_financial_premium" for government or
financial tiers, and unchanged for a public tier. In particular (see the
witness) amount 1000, percentage 0.01, min 1, max 10, public tier yields
fee 5 with label "percentage_1_percent". -/
theorem calculatePrice_nonloyalty_spec (cfg : PricingConfig)
    (h : cfg.verificationMinFee ≤ cfg.verificationMaxFee)
    (user? : Option User)
    (hfree : ∀ u, user? = some u → u.freeVerificationsEarned = 0)
    (amount : ℚ) (lvl : AccessLevel) :
    calculatePrice cfg user? amount lvl = specNonLoyaltyPrice cfg amount lvl := by
  have core : calculatePriceNoLoyalty cfg amount lvl
      = specNonLoyaltyPrice cfg amount lvl := by
    cases lvl <;>
      simp only [calculatePriceNoLoyalty, specNonLoyaltyPrice, specClamp]
    case public =>
      rw [clamp_chain_eq h, clamp_tuple_fst h, clamp_idem h]
      congr 1
      congr 1
      split_ifs <;> rfl
    case restricted =>
      rw [clamp_chain_eq h, clamp_tuple_fst h]
    case government =>
      rw [clamp_chain_eq h, min_self, max_eq_right h]
    case financial =>
      rw [clamp_chain_eq h, min_self, max_eq_right h]
  cases user? with
  | none => exact core
  | some u =>
      have hz : u.freeVerificationsEarned = 0 := hfree u rfl
      simp [calculatePrice, hz, core]

theorem calculatePrice_nonloyalty_spec_witness :
    defaultPricing.verificationMinFee ≤ defaultPricing.verificationMaxFee ∧
    calculatePrice defaultPricing none 1000 AccessLevel.public
      = specNonLoyaltyPrice defaultPricing 1000 AccessLevel.public ∧
    specNonLoyaltyPrice defaultPricing 1000 AccessLevel.public
      = (5, false, "percentage_1_percent") :=
  ⟨by norm_num [defaultPricing],
    calculatePrice_nonloyalty_spec defaultPricing (by norm_num [defaultPricing])
      none (by intro u hu; cases hu) 1000 AccessLevel.public,
    by norm_num [specNonLoyaltyPrice, specClamp, defaultPricing]⟩

/-- C2: when the authenticated requester's wallet balance (non-negative,
as every stored balance is) is strictly below the computed fee,
`VerifyBill` returns the insufficient-balance error carrying the
required and available amounts and the database is returned completely
unchanged: the wallet is untouched and no audit record is written. -/
theorem verifyBill_insufficient_balance (cfg : PricingConfig) (db : DB)
    (uid bn ip ua : String) (role : UserRole) (bill : Bill) (u : User)
    (hb : db.bills bn = some bill) (hu : db.users uid = some u)
    (h0 : 0 ≤ u.walletBalance)
    (hlt : u.walletBalance
      < (calculatePrice cfg (some u) bill.amount bill.accessLevel).1) :
    VerifyBill cfg db (some uid) bn ip ua role
      = (.error (.insufficientBalance
          (calculatePrice cfg (some u) bill.amount bill.accessLevel).1
          u.walletBalance), db) := by
  have hfree : ¬ 0 < u.freeVerificationsEarned := by
    intro hpos
    rw [show (calculatePrice cfg (some u) bill.amount bill.accessLevel).1 = 0 from by
      simp [calculatePrice, hpos]] at hlt
    linarith
  have hwf : (calculatePrice cfg (some u) bill.amount bill.accessLevel).2.1
      = false := by
    simp [calculatePrice, hfree, calculatePriceNoLoyalty]
  unfold VerifyBill
  rw [hb]
  dsimp only [Option.bind]
  rw [hu, hwf]
  dsimp only
  unfold settleStep
  rw [hu]
  dsimp only
  rw [if_pos hlt]

theorem verifyBill_insufficient_balance_witness :
    (dbWith (some brokeUser) (some publicBill)).bills "EPR-INV-2025-001"
        = some publicBill ∧
    brokeUser.walletBalance
        < (calculatePrice defaultPricing (some brokeUser) publicBill.amount
            publicBill.accessLevel).1 ∧
    VerifyBill defaultPricing (dbWith (some brokeUser) (some publicBill))
        (some "u1") "EPR-INV-2025-001" "ip" "ua" UserRole.public
      = (.error (.insufficientBalance
          (calculatePrice defaultPricing (some brokeUser) publicBill.amount
            publicBill.accessLevel).1
          brokeUser.walletBalance),
        dbWith (some brokeUser) (some publicBill)) :=
  ⟨rfl,
    by norm_num [calculatePrice, calculatePriceNoLoyalty, defaultPricing,
      publicBill, brokeUser],
    verifyBill_insufficient_balance defaultPricing
      (dbWith (some brokeUser) (some publicBill)) "u1" "EPR-INV-2025-001"
      "ip" "ua" UserRole.public publicBill brokeUser rfl rfl
      (by norm_num [brokeUser])
      (by norm_num [calculatePrice, calculatePriceNoLoyalty, defaultPricing,
        publicBill, brokeUser])⟩

/-- C6: the claim that every completed authenticated verification
increments the requester's verification_count — including fee-waived
ones — is false: a requester holding a loyalty credit completes a
successful verification of an existing bill (`isOkB ... = true`) and
their verification_count is unchanged, because the counter update lives
inside the not-free wallet branch of `VerifyBill`. -/
theorem free_verification_count_cex :
    freeUser.freeVerificationsEarned = 1 ∧
    freeUser.verificationCount = 3 ∧
    isOkB (VerifyBill defaultPricing (dbWith (some freeUser) (some publicBill))
        (some "u1") "EPR-INV-2025-001" "ip" "ua" UserRole.public).1 = true ∧
    ((VerifyBill defaultPricing (dbWith (some freeUser) (some publicBill))
        (some "u1") "EPR-INV-2025-001" "ip" "ua" UserRole.public).2.users
          "u1").map User.verificationCount = some 3 :=
  ⟨rfl, rfl, rfl, rfl⟩

/-- C6 (amended): an authenticated verification of an existing bill
increments the requester's verification_count by exactly one when a fee
was actually charged (no loyalty waiver and sufficient funds), and
leaves the count unchanged when the fee was waived by a loyalty free
credit. -/
theorem verifyBill_count_semantics (cfg : PricingConfig) (db : DB)
    (uid bn ip ua : String) (role : UserRole) (bill : Bill) (u : User)
    (hb : db.bills bn = some bill) (hu : db.users uid = some u) :
    (0 < u.freeVerificationsEarned →
      ((VerifyBill cfg db (some uid) bn ip ua role).2.users uid).map
          User.verificationCount = some u.verificationCount) ∧
    (u.freeVerificationsEarned = 0 →
      ¬ u.walletBalance
          < (calculatePriceNoLoyalty cfg bill.amount bill.accessLevel).1 →
      ((VerifyBill cfg db (some uid) bn ip ua role).2.users uid).map
          User.verificationCount = some (u.verificationCount + 1)) := by
  constructor
  · intro hpos
    have hwf : (calculatePrice cfg (some u) bill.amount bill.accessLevel)
        = (0, true, "loyalty_free") := by
      simp [calculatePrice, hpos]
    unfold VerifyBill
    rw [hb]
    dsimp only [Option.bind]
    rw [hu, hwf]
    dsimp only
    rw [recordVerification_users, hu]
    rfl
  · intro hzero hge
    have hwf : (calculatePrice cfg (some u) bill.amount bill.accessLevel)
        = calculatePriceNoLoyalty cfg bill.amount bill.accessLevel := by
      simp [calculatePrice, hzero]
    have hnl2 : (calculatePriceNoLoyalty cfg bill.amount bill.accessLevel).2.1
        = false := by
      simp [calculatePriceNoLoyalty]
    unfold VerifyBill
    rw [hb]
    dsimp only [Option.bind]
    rw [hu, hwf, hnl2]
    dsimp only
    unfold settleStep
    rw [hu]
    dsimp only
    rw [if_neg hge]
    unfold UpdateWalletBalance
    rw [hu]
    dsimp only
    unfold IncrementVerificationCount
    rw [setUser_users_self]
    dsimp only
    rw [recordVerification_users]
    simp [DB.setUser, incrementUser]

theorem verifyBill_count_semantics_witness :
    paidUser.freeVerificationsEarned = 0 ∧
    ¬ paidUser.walletBalance
        < (calculatePriceNoLoyalty defaultPricing publicBill.amount
            publicBill.accessLevel).1 ∧
    ((VerifyBill defaultPricing (dbWith (some paidUser) (some publicBill))
        (some "u1") "EPR-INV-2025-001" "ip" "ua" UserRole.public).2.users
          "u1").map User.verificationCount
      = some (paidUser.verificationCount + 1) :=
  ⟨rfl,
    by norm_num [calculatePriceNoLoyalty, defaultPricing, publicBill, paidUser],
    (verifyBill_count_semantics defaultPricing
        (dbWith (some paidUser) (some publicBill)) "u1" "EPR-INV-2025-001"
        "ip" "ua" UserRole.public publicBill paidUser rfl rfl).2 rfl
      (by norm_num [calculatePriceNoLoyalty, defaultPricing, publicBill,
        paidUser])⟩

theorem UpdateWalletBalance_records (db : DB) (uid : String) (nb : ℚ)
    (db1 : DB) (h : UpdateWalletBalance db uid nb = .ok db1) :
    db1.records = db.records := by
  unfold UpdateWalletBalance at h
  cases hu : db.users uid with
  | none => rw [hu] at h; cases h
  | some u =>
      rw [hu] at h
      cases h
      rfl

theorem IncrementVerificationCount_records (db : DB) (uid : String) :
    ((IncrementVerificationCount db uid).2).records = db.records := by
  unfold IncrementVerificationCount
  cases hu : db.users uid <;> rfl

theorem settleStep_ok_records (db : DB) (uid : String) (fee : ℚ) (db2 : DB)
    (h : settleStep db uid fee = .ok db2) : db2.records = db.records := by
  unfold settleStep at h
  cases hu : db.users uid with
  | none => rw [hu] at h; dsimp only at h; cases h
  | some u =>
      rw [hu] at h
      dsimp only at h
      by_cases hlt : u.walletBalance < fee
      · rw [if_pos hlt] at h; cases h
      · rw [if_neg hlt] at h
        cases hupd : UpdateWalletBalance db uid (u.walletBalance - fee) with
        | error e => rw [hupd] at h; cases h
        | ok db1 =>
            rw [hupd] at h
            dsimp only at h
            cases h
            rw [IncrementVerificationCount_records]
            exact UpdateWalletBalance_records db uid _ db1 hupd

theorem recordVerification_records (db : DB) (userID billID : Option String)
    (bn : String) (fee : ℚ) (wasFree : Bool) (status : VerificationStatus)
    (dr : Option RevealedFields) (ip ua : String) :
    ∃ rec : Verification,
      (recordVerification db userID billID bn fee wasFree status dr ip
          ua).records = rec :: db.records ∧
      rec.pricingRuleApplied = "standard" :=
  ⟨_, rfl, rfl⟩

/-- C8: the claim that the audit record stores the pricing-rule label
produced by the pricing computation is false: a loyalty-waived
verification computes the label "loyalty_free", yet the record written
stores the constant "standard" (`recordVerification` line 291; the
computed label is discarded at `VerifyBill` line 71). -/
theorem pricing_label_not_recorded_cex :
    ((VerifyBill defaultPricing (dbWith (some freeUser) (some publicBill))
        (some "u1") "EPR-INV-2025-001" "ip" "ua" UserRole.public).2.records.map
          (fun r => r.pricingRuleApplied)) = ["standard"] ∧
    (calculatePrice defaultPricing (some freeUser) publicBill.amount
        publicBill.accessLevel).2.2 = "loyalty_free" ∧
    ("standard" : String) ≠ "loyalty_free" := by
  refine ⟨rfl, rfl, ?_⟩
  decide

/-- C8 (amended): every audit record appended by `VerifyBill` stores the
constant pricing-rule label "standard", regardless of the label computed
by `calculatePrice` (which `VerifyBill` discards); pre-existing records
are untouched. -/
theorem recorded_rule_is_standard (cfg : PricingConfig) (db : DB)
    (userID : Option String) (bn ip ua : String) (role : UserRole) :
    (VerifyBill cfg db userID bn ip ua role).2.records = db.records ∨
    ∃ rec : Verification,
      (VerifyBill cfg db userID bn ip ua role).2.records


        = rec :: db.records ∧
      rec.pricingRuleApplied = "standard" := by
  unfold VerifyBill
  cases hb : db.bills bn with
  | none =>
      cases userID with
      | none => left; rfl
      | some uid => right; exact ⟨_, rfl, rfl⟩
  | some bill =>
      cases userID with
      | none =>
          dsimp only
          left
          rfl
      | some uid =>
          dsimp only [Option.bind]
          cases hw : (calculatePrice cfg (db.users uid) bill.amount
              bill.accessLevel).2.1 with
          | true =>
              dsimp only
              right
              exact ⟨_, rfl, rfl⟩
          | false =>
              dsimp only
              cases hs : settleStep db uid
                  (calculatePrice cfg (db.users uid) bill.amount
                    bill.accessLevel).1 with
              | error e => left; rfl
              | ok db2 =>
                  dsimp only
                  right
                  rw [← settleStep_ok_records db uid _ db2 hs]
                  refine ⟨_, rfl, ?_⟩
                  rfl

theorem charsLt_asymm : ∀ x y : List Char,
    charsLt x y = true → charsLt y x = true → False := by
  intro x
  induction x with
  | nil => intro y h1 h2; cases y <;> simp [charsLt] at h1 h2
  | cons a as ih =>
      intro y h1 h2
      cases y with
      | nil => simp [charsLt] at h1
      | cons b bs =>
          by_cases hab : a = b
          · subst hab
            simp [charsLt] at h1 h2
            exact ih bs h1 h2
          · have hba : ¬b = a := fun e => hab e.symm
            simp [charsLt, hab, hba] at h1 h2
            exact absurd h2 (lt_asymm h1)

theorem charsLt_trans : ∀ x y z : List Char,
    charsLt x y = true → charsLt y z = true → charsLt x z = true := by
  intro x
  induction x with
  | nil =>
      intro y z h1 h2
      cases y with
      | nil => simp [charsLt] at h1
      | cons b bs =>
          cases z with
          | nil => simp [charsLt] at h2
          | cons c cs => simp [charsLt]
  | cons a as ih =>
      intro y z h1 h2
      cases y with
      | nil => simp [charsLt] at h1
      | cons b bs =>
          cases z with
          | nil => simp [charsLt] at h2
          | cons c cs =>
              by_cases hab : a = b <;> by_cases hbc : b = c
              · subst hab; subst hbc
                simp [charsLt] at h1 h2 ⊢
                exact ih bs cs h1 h2
              · simp [charsLt, hbc] at h2
                have hac : ¬a = c := fun e => hbc (hab.symm.trans e)
                have hlt : a < c := hab ▸ h2
                simp [charsLt, hac]
                exact hlt
              · simp [charsLt, hab] at h1
                have hac : ¬a = c := fun e => hab (e.trans hbc.symm)
                have hlt : a < c := hbc ▸ h1
                simp [charsLt, hac]
                exact hlt
              · have hba : ¬b = a := fun e => hab e.symm
                simp [charsLt, hab] at h1
                simp [charsLt, hbc] at h2
                have hac2 : a < c := lt_trans h1 h2
                have hac : ¬a = c := ne_of_lt hac2
                simp [charsLt, hac]
                exact hac2

theorem charsLt_total : ∀ x y : List Char,
    charsLt x y = true ∨ x = y ∨ charsLt y x = true := by
  intro x
  induction x with
  | nil =>
      intro y
      cases y with
      | nil => exact Or.inr (Or.inl rfl)
      | cons b bs => exact Or.inl (by simp [charsLt])
  | cons a as ih =>
      intro y
      cases y with
      | nil => exact Or.inr (Or.inr (by simp [charsLt]))
      | cons b bs =>
          by_cases hab : a = b
          · subst hab
            rcases ih bs with h | h | h
            · exact Or.inl (by simp [charsLt, h])
            · exact Or.inr (Or.inl (by rw [h]))
            · exact Or.inr (Or.inr (by simp [charsLt, h]))
          · rcases lt_or_gt_of_ne (show a ≠ b from hab) with h | h
            · exact Or.inl (by simp [charsLt, hab, h])
            · have hba : ¬b = a := fun e => hab e.symm
              exact Or.inr (Or.inr (by simp [charsLt, hba, h]))

theorem string_data_inj {a b : String} (h : a.data = b.data) : a = b := by
  cases a
  cases b
  exact congrArg String.mk h

theorem keyLe_total (a b : String × Json) : keyLe a b ∨ keyLe b a := by
  rcases charsLt_total a.1.data b.1.data with h | h | h
  · exact Or.inl (Or.inl h)
  · exact Or.inl (Or.inr h)
  · exact Or.inr (Or.inl h)

theorem keyLe_trans (a b c : String × Json)
    (h1 : keyLe a b) (h2 : keyLe b c) : keyLe a c := by
  rcases h1 with h1 | h1 <;> rcases h2 with h2 | h2
  · exact Or.inl (charsLt_trans _ _ _ h1 h2)
  · exact Or.inl (h2 ▸ h1)
  · exact Or.inl (h1 ▸ h2)
  · exact Or.inr (h1.trans h2)

theorem keyLe_ne_lt {a b : String × Json} (h : keyLe a b) (hne : a.1 ≠ b.1) :
    charsLt a.1.data b.1.data = true := by
  rcases h with h | h
  · exact h
  · exact absurd (string_data_inj h) hne

theorem sortPairs_eq_of_perm (l1 l2 : List (String × Json))
    (hp : l1.Perm l2) (hnd : (l1.map Prod.fst).Nodup) :
    sortPairs l1 = sortPairs l2 := by
  haveI : IsTotal (String × Json) keyLe := ⟨keyLe_total⟩
  haveI : IsTrans (String × Json) keyLe := ⟨keyLe_trans⟩
  have hs1 : List.Sorted keyLe (sortPairs l1) :=
    List.sorted_insertionSort keyLe l1
  have hs2 : List.Sorted keyLe (sortPairs l2) :=
    List.sorted_insertionSort keyLe l2
  have hperm : (sortPairs l1).Perm (sortPairs l2) :=
    ((List.perm_insertionSort keyLe l1).trans hp).trans
      (List.perm_insertionSort keyLe l2).symm
  have hnd1 : ((sortPairs l1).map Prod.fst).Nodup :=
    ((List.perm_insertionSort keyLe l1).map Prod.fst).symm.nodup hnd
  have hnd2 : ((sortPairs l2).map Prod.fst).Nodup :=
    (hperm.map Prod.fst).nodup hnd1
  have hne1 : List.Pairwise (fun a b : String × Json => a.1 ≠ b.1)
      (sortPairs l1) := List.pairwise_map.mp hnd1
  have hne2 : List.Pairwise (fun a b : String × Json => a.1 ≠ b.1)
      (sortPairs l2) := List.pairwise_map.mp hnd2
  have strict1 : List.Pairwise
      (fun a b : String × Json => charsLt a.1.data b.1.data = true)
      (sortPairs l1) :=
    (hs1.and hne1).imp fun h => keyLe_ne_lt h.1 h.2
  have strict2 : List.Pairwise
      (fun a b : String × Json => charsLt a.1.data b.1.data = true)
      (sortPairs l2) :=
    (hs2.and hne2).imp fun h => keyLe_ne_lt h.1 h.2
  haveI : IsAntisymm (String × Json)
      (fun a b : String × Json => charsLt a.1.data b.1.data = true) :=
    ⟨fun a b h1 h2 => (charsLt_asymm _ _ h1 h2).elim⟩
  exact List.eq_of_perm_of_sorted hperm strict1 strict2

theorem lookupRemove_perm (k : String) :
    ∀ (l : List (String × Json)) (v : Json) (rest : List (String × Json)),
      lookupRemove k l = some (v, rest) → l.Perm ((k, v) :: rest) := by
  intro l
  induction l with
  | nil => intro v rest h; simp [lookupRemove] at h
  | cons p tail ih =>
      intro v rest h
      obtain ⟨k2, v2⟩ := p
      by_cases hk : k2 = k
      · subst hk
        simp [lookupRemove] at h
        obtain ⟨hv, hr⟩ := h
        subst hv
        subst hr
        exact List.Perm.refl _
      · simp only [lookupRemove, if_neg hk] at h
        cases hla : lookupRemove k tail with
        | none => rw [hla] at h; cases h
        | some p =>
            obtain ⟨a, b⟩ := p
            rw [hla] at h
            simp only [Option.map_some'] at h
            cases h
            exact ((ih _ _ hla).cons (k2, v2)).trans (List.Perm.swap _ _ _)

theorem normalizePairs_eq_map (l : List (String × Json)) :
    normalizePairs l = l.map (fun kv => (kv.1, normalizeJSON kv.2)) := by
  induction l with
  | nil => rfl
  | cons p rest ih =>
      obtain ⟨k, v⟩ := p
      simp [normalizePairs, ih]

theorem normalizePairs_map_fst (l : List (String × Json)) :
    (normalizePairs l).map Prod.fst = l.map Prod.fst := by
  rw [normalizePairs_eq_map, List.map_map]
  rfl

theorem normalizeList_eq_map (l : List Json) :
    normalizeList l = l.map normalizeJSON := by
  induction l with
  | nil => rfl
  | cons x xs ih => simp [normalizeList, ih]

theorem WFList_mem {xs : List Json} {x : Json}
    (h : WFList xs = true) (hm : x ∈ xs) : WFDoc x = true := by
  induction xs with
  | nil => cases hm
  | cons y ys ih =>
      rw [WFList, Bool.and_eq_true] at h
      rcases List.mem_cons.mp hm with he | hm2
      · exact he ▸ h.1
      · exact ih h.2 hm2

theorem WFPairs_mem {kvs : List (String × Json)} {k : String} {v : Json}
    (h : WFPairs kvs = true) (hm : (k, v) ∈ kvs) : WFDoc v = true := by
  induction kvs with
  | nil => cases hm
  | cons p rest ih =>
      obtain ⟨k2, v2⟩ := p
      rw [WFPairs, Bool.and_eq_true] at h
      rcases List.mem_cons.mp hm with he | hm2
      · cases he; exact h.1
      · exact ih h.2 hm2

theorem nodupKeysB_nodup : ∀ l : List (String × Json),
    nodupKeysB l = true → (l.map Prod.fst).Nodup := by
  intro l
  induction l with
  | nil => intro _; simp
  | cons p rest ih =>
      intro h
      obtain ⟨k, v⟩ := p
      rw [nodupKeysB, Bool.and_eq_true] at h
      obtain ⟨h1, h2⟩ := h
      rw [List.map_cons, List.nodup_cons]
      refine ⟨?_, ih h2⟩
      intro hk
      obtain ⟨q, hq, hqk⟩ := List.mem_map.mp hk
      rw [Bool.not_eq_true', List.any_eq_false] at h1
      exact absurd (by simpa using hqk) (by simpa using h1 q hq)

theorem docEquivList_norm (xs : List Json) :
    ∀ ys : List Json,
      (∀ x ∈ xs, ∀ y, docEquiv x y = true → normalizeJSON x = normalizeJSON y) →
      docEquivList xs ys = true → normalizeList xs = normalizeList ys := by
  induction xs with
  | nil =>
      intro ys _ h
      cases ys with
      | nil => rfl
      | cons y ys2 => simp [docEquivList] at h
  | cons x xs2 ih =>
      intro ys IH h
      cases ys with
      | nil => simp [docEquivList] at h
      | cons y ys2 =>
          rw [docEquivList, Bool.and_eq_true] at h
          rw [normalizeList, normalizeList,
            IH x (List.mem_cons_self x xs2) y h.1,
            ih ys2 (fun z hz => IH z (List.mem_cons_of_mem x hz)) h.2]

theorem docEquivPairs_norm_perm (kvs : List (String × Json)) :
    ∀ qs : List (String × Json),
      (∀ k v, (k, v) ∈ kvs → ∀ w, docEquiv v w = true →
        normalizeJSON v = normalizeJSON w) →
      docEquivPairs kvs qs = true →
      (normalizePairs kvs).Perm (normalizePairs qs) := by
  induction kvs with
  | nil =>
      intro qs _ h
      cases qs with
      | nil => exact List.Perm.refl _
      | cons q qs2 => simp [docEquivPairs] at h
  | cons kv rest ih =>
      intro qs IH h
      obtain ⟨k, v⟩ := kv
      rw [docEquivPairs] at h
      cases hlr : lookupRemove k qs with
      | none => rw [hlr] at h; cases h
      | some p =>
          obtain ⟨w, qs2⟩ := p
          rw [hlr] at h
          rw [Bool.and_eq_true] at h
          have hvw : normalizeJSON v = normalizeJSON w :=
            IH k v (List.mem_cons_self _ _) w h.1
          have hrest : (normalizePairs rest).Perm (normalizePairs qs2) :=
            ih qs2 (fun k2 v2 hm w2 hd =>
              IH k2 v2 (List.mem_cons_of_mem _ hm) w2 hd) h.2
          have hq : (normalizePairs qs).Perm (normalizePairs ((k, w) :: qs2)) := by
            rw [normalizePairs_eq_map, normalizePairs_eq_map]
            exact (lookupRemove_perm k qs w qs2 hlr).map _
          refine List.Perm.trans ?_ hq.symm
          show ((k, normalizeJSON v) :: normalizePairs rest).Perm
            ((k, normalizeJSON w) :: normalizePairs qs2)
          rw [hvw]
          exact hrest.cons _

theorem json_sizeOf_pos (d : Json) : 0 < sizeOf d := by
  cases d <;> simp

theorem normalizeJSON_eq_of_docEquiv_bounded :
    ∀ n : Nat, ∀ d : Json, sizeOf d ≤ n → WFDoc d = true →
      ∀ d' : Json, docEquiv d d' = true →
        normalizeJSON d = normalizeJSON d' := by
  intro n
  induction n with
  | zero =>
      intro d hd
      exact absurd hd (by have := json_sizeOf_pos d; omega)
  | succ n ih =>
      intro d hd hwf d' h
      cases d with
      | str s =>
          cases d' <;> simp [docEquiv] at h
          rw [h]
      | num q =>
          cases d' <;> simp [docEquiv] at h
          rw [h]
      | bool b =>
          cases d' <;> simp [docEquiv] at h
          rw [h]
      | null =>
          cases d' <;> simp [docEquiv] at h
          rfl
      | arr xs =>
          cases d' with
          | str s => simp [docEquiv] at h
          | num q => simp [docEquiv] at h
          | bool b => simp [docEquiv] at h
          | null => simp [docEquiv] at h
          | obj qs => simp [docEquiv] at h
          | arr ys =>
          simp only [docEquiv] at h
          rw [WFDoc] at hwf
          have hxs : sizeOf xs ≤ n := by
            have : sizeOf (Json.arr xs) = 1 + sizeOf xs := by simp
            omega
          show Json.arr (normalizeList xs) = Json.arr (normalizeList ys)
          refine congrArg Json.arr
            (docEquivList_norm xs ys (fun x hx y hxy => ?_) h)
          have hsx : sizeOf x < sizeOf xs := List.sizeOf_lt_of_mem hx
          exact ih x (by omega) (WFList_mem hwf hx) y hxy
      | obj kvs =>
          cases d' with
          | str s => simp [docEquiv] at h
          | num q => simp [docEquiv] at h
          | bool b => simp [docEquiv] at h
          | null => simp [docEquiv] at h
          | arr ys => simp [docEquiv] at h
          | obj qs =>
          simp only [docEquiv] at h
          rw [WFDoc, Bool.and_eq_true] at hwf
          have hkvs : sizeOf kvs ≤ n := by
            have : sizeOf (Json.obj kvs) = 1 + sizeOf kvs := by simp
            omega
          show Json.obj (sortPairs (normalizePairs kvs))
            = Json.obj (sortPairs (normalizePairs qs))
          refine congrArg Json.obj ?_
          refine sortPairs_eq_of_perm _ _
            (docEquivPairs_norm_perm kvs qs (fun k v hm w hd => ?_) h) ?_
          · have hsv : sizeOf (k, v) < sizeOf kvs := List.sizeOf_lt_of_mem hm
            have hsv2 : sizeOf v < sizeOf (k, v) := by simp
            exact ih v (by omega) (WFPairs_mem hwf.2 hm) w hd
          · rw [normalizePairs_map_fst]
            exact nodupKeysB_nodup kvs hwf.1

/-- C9: two well-formed documents that are equal as unordered-key trees
(the same maps up to key order, the same sequences in the same order,
the same scalar leaves) receive the same digest from `GenerateBillHash`,
and `VerifyBillHash` accepts the one's digest for the other. -/
theorem generateBillHash_unordered (d d' : Json) (hwf : WFDoc d = true)
    (h : docEquiv d d' = true) :
    GenerateBillHash d = GenerateBillHash d' ∧
    VerifyBillHash d' (GenerateBillHash d) = true := by
  have hn : normalizeJSON d = normalizeJSON d' :=
    normalizeJSON_eq_of_docEquiv_bounded (sizeOf d) d (le_refl _) hwf d' h
  have hg : GenerateBillHash d = GenerateBillHash d' := by
    unfold GenerateBillHash
    rw [hn]
  refine ⟨hg, ?_⟩
  unfold VerifyBillHash
  rw [hg]
  exact beq_self_eq_true _

theorem generateBillHash_unordered_witness :
    WFDoc demoDoc = true ∧
    docEquiv demoDoc demoDocPerm = true ∧
    GenerateBillHash demoDoc = GenerateBillHash demoDocPerm ∧
    VerifyBillHash demoDocPerm (GenerateBillHash demoDoc) = true :=
  ⟨rfl, rfl,
    (generateBillHash_unordered demoDoc demoDocPerm rfl rfl).1,
    (generateBillHash_unordered demoDoc demoDocPerm rfl rfl).2⟩

end EPR
